import Mathlib

/-!
Verification development for an ETL pipeline that copies a relational shop
database into a Neo4j property graph (`app/etl.py`) and for the graph-query
recommendation endpoints served over it (`app/main.py`).

The embedding is shallow:

* A Neo4j node set keyed by a unique natural id is modelled as an
  association list from id to the node's attributes; a Cypher
  `MERGE (n {id: $id}) SET n.attrs = ...` is the in-place `upsert` below.
* An attribute-free relationship set under `MERGE` is a duplicate-free list
  with `insertEdge` (append-if-absent); a relationship whose attribute is
  `SET` after the merge (CONTAINS.quantity, interaction timestamps) is an
  association list keyed by its endpoint tuple.
* Numeric attributes (price, quantity) are modelled as `Int` (the source
  coerces them with `float(...)` / `int(...)`; their values are carried but
  never computed with, except summing quantities).
* A timestamp column is a value that either yields an ISO string or raises
  when `.isoformat()` is called on it, matching how a malformed source
  timestamp surfaces in the loader.
* The Cypher `ORDER BY ... LIMIT ...` of the query endpoints guarantees only
  the sort key; the relative order of tied rows is not specified.  A query
  result is therefore a relation (`IsTopK`): any permutation of the scored
  rows that is sorted by the key, truncated to the limit.
-/

section AssocList

variable {κ : Type} {α : Type} [DecidableEq κ]

/-- Lookup of a node's attributes by its natural id (a Cypher match on a
uniquely-keyed node). -/
def alookup (k : κ) : List (κ × α) → Option α
  | [] => none
  | kv :: t => if k = kv.1 then some kv.2 else alookup k t

/-- One `MERGE (n {id: k}) SET n = v`: update the entry in place when the key
is present, otherwise append a fresh entry. -/
def upsert (k : κ) (v : α) : List (κ × α) → List (κ × α)
  | [] => [(k, v)]
  | kv :: t => if k = kv.1 then (k, v) :: t else kv :: upsert k v t

/-- A batch of keyed merges applied in row order. -/
def upsertFold (m : List (κ × α)) (w : List (κ × α)) : List (κ × α) :=
  w.foldl (fun m kv => upsert kv.1 kv.2 m) m

/-- The ids present in a node map. -/
def keysOf (m : List (κ × α)) : List κ := m.map Prod.fst

theorem keysOf_nil : keysOf ([] : List (κ × α)) = [] := rfl

theorem keysOf_cons (kv : κ × α) (t : List (κ × α)) :
    keysOf (kv :: t) = kv.1 :: keysOf t := rfl

theorem keysOf_append (m e : List (κ × α)) :
    keysOf (m ++ e) = keysOf m ++ keysOf e := List.map_append _ _ _

theorem upsertFold_nil (m : List (κ × α)) : upsertFold m [] = m := rfl

theorem upsertFold_cons (m : List (κ × α)) (kv : κ × α) (w : List (κ × α)) :
    upsertFold m (kv :: w) = upsertFold (upsert kv.1 kv.2 m) w := rfl

theorem upsertFold_append (m : List (κ × α)) (w₁ w₂ : List (κ × α)) :
    upsertFold m (w₁ ++ w₂) = upsertFold (upsertFold m w₁) w₂ :=
  List.foldl_append _ _ _ _

theorem upsertFold_singleton (m : List (κ × α)) (kv : κ × α) :
    upsertFold m [kv] = upsert kv.1 kv.2 m := rfl

theorem mem_keysOf_upsert_self (k : κ) (v : α) (m : List (κ × α)) :
    k ∈ keysOf (upsert k v m) := by
  induction m with
  | nil => simp [upsert, keysOf]
  | cons kv t ih =>
    by_cases h : k = kv.1
    · simp [upsert, h, keysOf_cons]
    · simp only [upsert, if_neg h, keysOf_cons, List.mem_cons]
      exact Or.inr ih

theorem mem_keysOf_upsert_of_mem {x k : κ} {v : α} {m : List (κ × α)}
    (h : x ∈ keysOf m) : x ∈ keysOf (upsert k v m) := by
  induction m with
  | nil => simp [keysOf] at h
  | cons kv t ih =>
    rw [keysOf_cons, List.mem_cons] at h
    by_cases hk : k = kv.1
    · simp only [upsert, if_pos hk, keysOf_cons, List.mem_cons]
      rcases h with h | h
      · exact Or.inl (by rw [h, hk])
      · exact Or.inr h
    · simp only [upsert, if_neg hk, keysOf_cons, List.mem_cons]
      rcases h with h | h
      · exact Or.inl h
      · exact Or.inr (ih h)

theorem upsert_of_not_mem {k : κ} {m : List (κ × α)} (v : α)
    (h : k ∉ keysOf m) : upsert k v m = m ++ [(k, v)] := by
  induction m with
  | nil => simp [upsert]
  | cons kv t ih =>
    rw [keysOf_cons, List.mem_cons] at h
    push_neg at h
    simp only [upsert, if_neg h.1, List.cons_append, List.cons.injEq, true_and]
    exact ih h.2

theorem keysOf_upsert_of_mem {k : κ} {m : List (κ × α)} (v : α)
    (h : k ∈ keysOf m) : keysOf (upsert k v m) = keysOf m := by
  induction m with
  | nil => simp [keysOf] at h
  | cons kv t ih =>
    rw [keysOf_cons, List.mem_cons] at h
    by_cases hk : k = kv.1
    · simp [upsert, hk, keysOf_cons]
    · rcases h with h | h
      · exact absurd h hk
      · simp only [upsert, if_neg hk, keysOf_cons, ih h]

theorem nodup_keysOf_upsert {k : κ} {m : List (κ × α)} (v : α)
    (h : (keysOf m).Nodup) : (keysOf (upsert k v m)).Nodup := by
  by_cases hk : k ∈ keysOf m
  · rwa [keysOf_upsert_of_mem v hk]
  · rw [upsert_of_not_mem v hk, keysOf_append]
    simpa [keysOf, List.nodup_append] using And.intro h hk

theorem upsert_append_of_mem {k : κ} {m : List (κ × α)} (v : α)
    (e : List (κ × α)) (h : k ∈ keysOf m) :
    upsert k v (m ++ e) = upsert k v m ++ e := by
  induction m with
  | nil => simp [keysOf] at h
  | cons kv t ih =>
    rw [keysOf_cons, List.mem_cons] at h
    by_cases hk : k = kv.1
    · simp [upsert, hk]
    · rcases h with h | h
      · exact absurd h hk
      · simp only [List.cons_append, upsert, if_neg hk, List.append_eq, ih h]

theorem upsert_append_self_of_not_mem {k : κ} {m : List (κ × α)} (v : α)
    (h : k ∉ keysOf m) : upsert k v (m ++ [(k, v)]) = m ++ [(k, v)] := by
  induction m with
  | nil => simp [upsert]
  | cons kv t ih =>
    rw [keysOf_cons, List.mem_cons] at h
    push_neg at h
    simp only [List.cons_append, upsert, if_neg h.1, List.cons.injEq, true_and]
    exact ih h.2

theorem mem_keysOf_upsertFold_of_mem {x : κ} {m w : List (κ × α)}
    (h : x ∈ keysOf m) : x ∈ keysOf (upsertFold m w) := by
  induction w generalizing m with
  | nil => simpa [upsertFold_nil] using h
  | cons kv w ih =>
    rw [upsertFold_cons]
    exact ih (mem_keysOf_upsert_of_mem h)

theorem mem_keysOf_upsertFold_of_mem_writes {kv : κ × α} {m w : List (κ × α)}
    (h : kv ∈ w) : kv.1 ∈ keysOf (upsertFold m w) := by
  induction w generalizing m with
  | nil => simp at h
  | cons kv' w ih =>
    rw [upsertFold_cons]
    rw [List.mem_cons] at h
    rcases h with h | h
    · rw [h]
      exact mem_keysOf_upsertFold_of_mem (mem_keysOf_upsert_self _ _ _)
    · exact ih h

theorem nodup_keysOf_upsertFold {m w : List (κ × α)}
    (h : (keysOf m).Nodup) : (keysOf (upsertFold m w)).Nodup := by
  induction w generalizing m with
  | nil => simpa [upsertFold_nil] using h
  | cons kv w ih =>
    rw [upsertFold_cons]
    exact ih (nodup_keysOf_upsert _ h)

theorem upsertFold_append_ext {m w : List (κ × α)} (e : List (κ × α))
    (h : ∀ kv ∈ w, kv.1 ∈ keysOf m) :
    upsertFold (m ++ e) w = upsertFold m w ++ e := by
  induction w generalizing m with
  | nil => simp [upsertFold_nil]
  | cons kv w ih =>
    rw [upsertFold_cons, upsertFold_cons,
      upsert_append_of_mem _ e (h kv (by simp))]
    exact ih fun kv' hkv' => mem_keysOf_upsert_of_mem (h kv' (by simp [hkv']))

/-- Two node maps that have the same ids in the same storage order and agree
on every node except possibly the one keyed `k`. -/
inductive AgreeExcept (k : κ) : List (κ × α) → List (κ × α) → Prop
  | nil : AgreeExcept k [] []
  | cons_ne {kv : κ × α} {t₁ t₂ : List (κ × α)} :
      kv.1 ≠ k → AgreeExcept k t₁ t₂ → AgreeExcept k (kv :: t₁) (kv :: t₂)
  | cons_eq {v₁ v₂ : α} {t₁ t₂ : List (κ × α)} :
      AgreeExcept k t₁ t₂ → AgreeExcept k ((k, v₁) :: t₁) ((k, v₂) :: t₂)

theorem AgreeExcept.rfl (k : κ) (m : List (κ × α)) : AgreeExcept k m m := by
  induction m with
  | nil => exact AgreeExcept.nil
  | cons kv t ih =>
    by_cases h : kv.1 = k
    · obtain ⟨k', v⟩ := kv
      simp only at h
      subst h
      exact AgreeExcept.cons_eq ih
    · exact AgreeExcept.cons_ne h ih

theorem AgreeExcept.keysOf_eq {k : κ} {m₁ m₂ : List (κ × α)}
    (h : AgreeExcept k m₁ m₂) : keysOf m₁ = keysOf m₂ := by
  induction h with
  | nil => rfl
  | cons_ne hne htl ih => simpa [keysOf] using ih
  | cons_eq htl ih => simpa [keysOf] using ih

theorem AgreeExcept.eq_of_not_mem {k : κ} {m₁ m₂ : List (κ × α)}
    (h : AgreeExcept k m₁ m₂) (hk : k ∉ keysOf m₁) : m₁ = m₂ := by
  induction h with
  | nil => rfl
  | cons_ne hne htl ih =>
    rw [keysOf_cons, List.mem_cons] at hk
    push_neg at hk
    rw [ih hk.2]
  | cons_eq htl ih =>
    exact absurd (by rw [keysOf_cons]; exact List.mem_cons_self _ _) hk

theorem AgreeExcept.upsert_eq {k : κ} {m₁ m₂ : List (κ × α)} (v : α)
    (h : AgreeExcept k m₁ m₂) (hnd : (keysOf m₁).Nodup) :
    upsert k v m₁ = upsert k v m₂ := by
  induction h with
  | nil => rfl
  | cons_ne hne htl ih =>
    rename_i kv t₁ t₂
    have hke : ¬ k = kv.1 := fun hh => hne (hh.symm)
    rw [keysOf_cons, List.nodup_cons] at hnd
    simp only [upsert, if_neg hke]
    rw [ih hnd.2]
  | cons_eq htl ih =>
    rename_i v₁ v₂ t₁ t₂
    rw [keysOf_cons, List.nodup_cons] at hnd
    have ht : t₁ = t₂ := htl.eq_of_not_mem hnd.1
    rw [ht]
    simp [upsert]

theorem AgreeExcept.upsert_preserve {k : κ} {m₁ m₂ : List (κ × α)}
    (h : AgreeExcept k m₁ m₂) (k' : κ) (v : α) :
    AgreeExcept k (upsert k' v m₁) (upsert k' v m₂) := by
  induction h with
  | nil =>
    by_cases hk : k' = k
    · subst hk
      exact AgreeExcept.cons_eq AgreeExcept.nil
    · exact AgreeExcept.cons_ne hk AgreeExcept.nil
  | cons_ne hne htl ih =>
    rename_i kv t₁ t₂
    by_cases hk : k' = kv.1
    · simp only [upsert, if_pos hk]
      exact AgreeExcept.cons_ne (by simpa [hk] using hne) htl
    · simp only [upsert, if_neg hk]
      exact AgreeExcept.cons_ne hne ih
  | cons_eq htl ih =>
    rename_i v₁ v₂ t₁ t₂
    by_cases hk : k' = k
    · simp only [upsert, if_pos hk]
      subst hk
      exact AgreeExcept.cons_eq htl
    · simp only [upsert, if_neg hk]
      exact AgreeExcept.cons_eq ih

theorem AgreeExcept.upsertFold_preserve {k : κ} {m₁ m₂ : List (κ × α)}
    (h : AgreeExcept k m₁ m₂) (w : List (κ × α)) :
    AgreeExcept k (upsertFold m₁ w) (upsertFold m₂ w) := by
  induction w generalizing m₁ m₂ with
  | nil => simpa [upsertFold_nil] using h
  | cons kv w ih =>
    rw [upsertFold_cons, upsertFold_cons]
    exact ih (h.upsert_preserve kv.1 kv.2)

theorem agreeExcept_upsert_of_mem {k : κ} {m : List (κ × α)} (v : α)
    (hk : k ∈ keysOf m) : AgreeExcept k m (upsert k v m) := by
  induction m with
  | nil => simp [keysOf] at hk
  | cons kv t ih =>
    rw [keysOf_cons, List.mem_cons] at hk
    by_cases h : k = kv.1
    · obtain ⟨k', v'⟩ := kv
      simp only at h
      subst h
      simp only [upsert, if_pos rfl]
      exact AgreeExcept.cons_eq (AgreeExcept.rfl _ _)
    · simp only [upsert, if_neg h]
      rcases hk with hk | hk
      · exact absurd hk h
      · exact AgreeExcept.cons_ne (fun hh => h hh.symm) (ih hk)

/-- Re-running the same batch of keyed merges over its own output changes
nothing: `MERGE ... SET ...` by natural id is idempotent batch-wise. -/
theorem upsertFold_idem (w : List (κ × α)) :
    ∀ m : List (κ × α), (keysOf m).Nodup →
      upsertFold (upsertFold m w) w = upsertFold m w := by
  induction w using List.reverseRecOn with
  | nil => intro m _; simp [upsertFold_nil]
  | append_singleton w kv ih =>
    intro m hnd
    rw [upsertFold_append, upsertFold_append,
      upsertFold_singleton, upsertFold_singleton]
    by_cases hmem : kv.1 ∈ keysOf (upsertFold m w)
    · have h₁ : AgreeExcept kv.1 (upsertFold m w)
          (upsert kv.1 kv.2 (upsertFold m w)) :=
        agreeExcept_upsert_of_mem kv.2 hmem
      have h₂ := h₁.upsertFold_preserve w
      rw [ih m hnd] at h₂
      exact (h₂.upsert_eq kv.2 (nodup_keysOf_upsertFold hnd)).symm
    · have e₁ : upsert kv.1 kv.2 (upsertFold m w) =
          upsertFold m w ++ [(kv.1, kv.2)] := upsert_of_not_mem kv.2 hmem
      rw [e₁, upsertFold_append_ext [(kv.1, kv.2)]
        (fun kv' hkv' => mem_keysOf_upsertFold_of_mem_writes hkv'),
        ih m hnd, upsert_append_self_of_not_mem kv.2 hmem]

end AssocList

section EdgeSet

variable {ε : Type} [DecidableEq ε]

/-- One attribute-free relationship `MERGE`: append the edge unless it is
already present between the same endpoints. -/
def insertEdge (e : ε) (es : List ε) : List ε := if e ∈ es then es else es ++ [e]

/-- A batch of relationship merges applied in row order. -/
def insertAll (es E : List ε) : List ε := E.foldl (fun es e => insertEdge e es) es

theorem insertAll_nil (es : List ε) : insertAll es [] = es := rfl

theorem insertAll_cons (es : List ε) (e : ε) (E : List ε) :
    insertAll es (e :: E) = insertAll (insertEdge e es) E := rfl

theorem mem_insertEdge_self (e : ε) (es : List ε) : e ∈ insertEdge e es := by
  unfold insertEdge
  split
  · assumption
  · simp

theorem mem_insertEdge_of_mem {x e : ε} {es : List ε} (h : x ∈ es) :
    x ∈ insertEdge e es := by
  unfold insertEdge
  split
  · exact h
  · simp [h]

theorem mem_insertEdge_iff {x e : ε} {es : List ε} :
    x ∈ insertEdge e es ↔ x ∈ es ∨ x = e := by
  unfold insertEdge
  split
  · rename_i hmem
    constructor
    · exact Or.inl
    · rintro (h | h)
      · exact h
      · exact h ▸ hmem
  · simp

theorem insertEdge_of_mem {e : ε} {es : List ε} (h : e ∈ es) :
    insertEdge e es = es := if_pos h

theorem mem_insertAll_of_mem {x : ε} {es E : List ε} (h : x ∈ es) :
    x ∈ insertAll es E := by
  induction E generalizing es with
  | nil => simpa [insertAll_nil] using h
  | cons e E ih =>
    rw [insertAll_cons]
    exact ih (mem_insertEdge_of_mem h)

theorem mem_insertAll_of_mem_list {x : ε} {es E : List ε} (h : x ∈ E) :
    x ∈ insertAll es E := by
  induction E generalizing es with
  | nil => simp at h
  | cons e E ih =>
    rw [insertAll_cons]
    rw [List.mem_cons] at h
    rcases h with h | h
    · rw [h]
      exact mem_insertAll_of_mem (mem_insertEdge_self _ _)
    · exact ih h

theorem mem_insertAll_iff {x : ε} {es E : List ε} :
    x ∈ insertAll es E ↔ x ∈ es ∨ x ∈ E := by
  induction E generalizing es with
  | nil => simp [insertAll_nil]
  | cons e E ih =>
    rw [insertAll_cons, ih, mem_insertEdge_iff]
    constructor
    · rintro ((h | h) | h)
      · exact Or.inl h
      · simp [h]
      · simp [h]
    · rintro (h | h)
      · exact Or.inl (Or.inl h)
      · rw [List.mem_cons] at h
        rcases h with h | h
        · exact Or.inl (Or.inr h)
        · exact Or.inr h

theorem insertAll_of_subset {es E : List ε} (h : ∀ x ∈ E, x ∈ es) :
    insertAll es E = es := by
  induction E with
  | nil => rfl
  | cons e E ih =>
    rw [insertAll_cons, insertEdge_of_mem (h e (by simp))]
    exact ih fun x hx => h x (by simp [hx])

/-- Re-merging the same batch of relationships over its own output changes
nothing. -/
theorem insertAll_idem (es E : List ε) :
    insertAll (insertAll es E) E = insertAll es E :=
  insertAll_of_subset fun x hx => mem_insertAll_of_mem_list hx

theorem nodup_insertEdge {e : ε} {es : List ε} (h : es.Nodup) :
    (insertEdge e es).Nodup := by
  unfold insertEdge
  split
  · exact h
  · rename_i hmem
    simpa [List.nodup_append] using And.intro h hmem

theorem nodup_insertAll {es E : List ε} (h : es.Nodup) :
    (insertAll es E).Nodup := by
  induction E generalizing es with
  | nil => simpa [insertAll_nil] using h
  | cons e E ih =>
    rw [insertAll_cons]
    exact ih (nodup_insertEdge h)

end EdgeSet

/-! ### Source rows and the property graph (`app/etl.py`) -/

/-- A source timestamp column value: either a value whose `isoformat()`
yields an ISO-8601 string, or a malformed value on which the conversion
raises.  `etl.py` calls `.isoformat()` (lines 177 and 210) with no handler
around the row loop. -/
inductive Ts
  | valid (s : String)
  | malformed
  deriving DecidableEq

/-- Whether `.isoformat()` succeeds on the value. -/
def Ts.isValid : Ts → Bool
  | .valid _ => true
  | .malformed => false

/-- The string produced by a successful `.isoformat()`.  On a malformed
value the loader aborts before any string is produced, so the default is
never observed. -/
def Ts.iso : Ts → String
  | .valid s => s
  | .malformed => ""

/-- Python `str.upper()` as applied to ASCII event-type strings
(`etl.py` line 207). -/
def upperAscii (s : String) : String := ⟨s.data.map Char.toUpper⟩

structure CategoryRow where
  id : Nat
  name : String
  deriving DecidableEq

structure ProductRow where
  id : Nat
  name : String
  price : Int
  category_id : Nat
  deriving DecidableEq

structure CustomerRow where
  id : Nat
  name : String
  join_date : String
  deriving DecidableEq

structure OrderRow where
  id : Nat
  customer_id : Nat
  ts : Ts
  deriving DecidableEq

structure OrderItemRow where
  order_id : Nat
  product_id : Nat
  quantity : Int
  deriving DecidableEq

structure EventRow where
  customer_id : Nat
  product_id : Nat
  event_type : String
  ts : Ts
  deriving DecidableEq

/-- The six fixed entity sets extracted from PostgreSQL (`etl.py` 116-132). -/
structure SourceData where
  categories : List CategoryRow
  products : List ProductRow
  customers : List CustomerRow
  orders : List OrderRow
  order_items : List OrderItemRow
  events : List EventRow
  deriving DecidableEq

/-- The Neo4j property graph: node sets keyed by natural id (association
lists), attribute-free edge sets, and attribute-carrying edge maps keyed by
their endpoint tuple.  An interaction edge is keyed by
(customer, product, relationship type); the type is the upper-cased event
type that `etl.py` interpolates into the query text (lines 207-215). -/
@[ext]
structure PropGraph where
  cats : List (Nat × String)
  prods : List (Nat × (String × Int))
  custs : List (Nat × (String × String))
  orders : List (Nat × String)
  inCat : List (Nat × Nat)
  placed : List (Nat × Nat)
  contains : List ((Nat × Nat) × Int)
  inter : List ((Nat × Nat × String) × String)
  deriving DecidableEq

def emptyPG : PropGraph := ⟨[], [], [], [], [], [], [], []⟩

/-! ### The loaders (`etl.py` 137-221) -/

/-- `etl.py` 139-143: `MERGE (c:Category {id}) SET c.name`. -/
def loadCategory (g : PropGraph) (r : CategoryRow) : PropGraph :=
  { g with cats := upsert r.id r.name g.cats }

def loadCategories (g : PropGraph) (rows : List CategoryRow) : PropGraph :=
  rows.foldl loadCategory g

/-- `etl.py` 147-159: `MERGE (p:Product {id}) SET name, price`, then `MATCH`
the category and `MERGE` the `IN_CATEGORY` edge; when the category `MATCH`
finds nothing the edge part silently does nothing. -/
def loadProduct (g : PropGraph) (r : ProductRow) : PropGraph :=
  if (alookup r.category_id g.cats).isSome then
    { g with prods := upsert r.id (r.name, r.price) g.prods,
             inCat := insertEdge (r.id, r.category_id) g.inCat }
  else
    { g with prods := upsert r.id (r.name, r.price) g.prods }

def loadProducts (g : PropGraph) (rows : List ProductRow) : PropGraph :=
  rows.foldl loadProduct g

/-- `etl.py` 163-171: `MERGE (c:Customer {id}) SET name, join_date`. -/
def loadCustomer (g : PropGraph) (r : CustomerRow) : PropGraph :=
  { g with custs := upsert r.id (r.name, r.join_date) g.custs }

def loadCustomers (g : PropGraph) (rows : List CustomerRow) : PropGraph :=
  rows.foldl loadCustomer g

/-- `etl.py` 175-188: `row['ts'].isoformat()` raises on a malformed value
and nothing catches it, so the loop dies at that row; otherwise `MERGE` the
order, `SET` its timestamp and `MERGE` the `PLACED` edge when the customer
`MATCH` succeeds.  Returns the graph reached (each statement auto-commits)
and whether the stage aborted. -/
def loadOrders (g : PropGraph) : List OrderRow → PropGraph × Bool
  | [] => (g, false)
  | r :: rest =>
    if r.ts.isValid then
      if (alookup r.customer_id g.custs).isSome then
        loadOrders { g with orders := upsert r.id r.ts.iso g.orders,
                            placed := insertEdge (r.customer_id, r.id) g.placed } rest
      else
        loadOrders { g with orders := upsert r.id r.ts.iso g.orders } rest
    else (g, true)

/-- `etl.py` 192-202: `MATCH` order and product, `MERGE` `CONTAINS`, `SET`
its quantity; a missing endpoint makes the `MATCH` produce no row and the
statement silently does nothing. -/
def loadOrderItem (g : PropGraph) (r : OrderItemRow) : PropGraph :=
  if (alookup r.order_id g.orders).isSome && (alookup r.product_id g.prods).isSome then
    { g with contains := upsert (r.order_id, r.product_id) r.quantity g.contains }
  else g

def loadOrderItems (g : PropGraph) (rows : List OrderItemRow) : PropGraph :=
  rows.foldl loadOrderItem g

/-- `etl.py` 206-221: uppercase the event type and interpolate it as the
relationship label, `MATCH` both endpoints (silently doing nothing when
either is absent), `MERGE` the edge keyed by (customer, product, label) and
`SET` its timestamp; a malformed `ts` raises in `.isoformat()` and aborts
the loop. -/
def loadEvents (g : PropGraph) : List EventRow → PropGraph × Bool
  | [] => (g, false)
  | r :: rest =>
    if r.ts.isValid then
      if (alookup r.customer_id g.custs).isSome && (alookup r.product_id g.prods).isSome then
        loadEvents { g with inter := upsert (r.customer_id, r.product_id, upperAscii r.event_type)
                                       r.ts.iso g.inter } rest
      else
        loadEvents g rest
    else (g, true)

/-- The load phase of `etl()` (`etl.py` 92-227): the six stages in source
order.  An uncaught per-row exception propagates out of the function, so
rows after it and later stages never run.  Returns the graph state left in
Neo4j together with an aborted flag.  (Readiness waits, schema setup from
the absent `queries.cypher`, and extraction are connection-level effects
with no graph content, outside this model.) -/
def etlLoad (g : PropGraph) (d : SourceData) : PropGraph × Bool :=
  let g1 := loadCategories g d.categories
  let g2 := loadProducts g1 d.products
  let g3 := loadCustomers g2 d.customers
  let p := loadOrders g3 d.orders
  if p.2 then (p.1, true)
  else
    let g5 := loadOrderItems p.1 d.order_items
    loadEvents g5 d.events

/-- The stdout trace of the load phase of `etl()`: the stage banners.  The
source prints nothing per row — in particular nothing when a row is
skipped or fails — and "ETL done !" is printed only when no row raised. -/
def etlLog (d : SourceData) : List String :=
  ["Extracting data from PostgreSQL...", "Loading data into Neo4j...",
   "Loading Categories...", "Loading Products...", "Loading Customers...",
   "Loading Orders..."] ++
  (if d.orders.all (fun r => r.ts.isValid) then
    ["Loading Order Items...", "Loading Events..."] ++
      (if d.events.all (fun r => r.ts.isValid) then ["ETL done !"] else [])
  else [])

/-! ### Canonical forms of the load stages

Each stage only writes its own fields and reads fields no row of the stage
modifies, so it is a batch of keyed merges (`upsertFold`) plus a batch of
edge merges (`insertAll`) computed from the rows and the fields read. -/

def catWrites (rows : List CategoryRow) : List (Nat × String) :=
  rows.map fun r => (r.id, r.name)

def prodWrites (rows : List ProductRow) : List (Nat × (String × Int)) :=
  rows.map fun r => (r.id, (r.name, r.price))

def prodEdges (cats : List (Nat × String)) : List ProductRow → List (Nat × Nat)
  | [] => []
  | r :: rows =>
    if (alookup r.category_id cats).isSome then
      (r.id, r.category_id) :: prodEdges cats rows
    else prodEdges cats rows

def custWrites (rows : List CustomerRow) : List (Nat × (String × String)) :=
  rows.map fun r => (r.id, (r.name, r.join_date))

def ordWrites (rows : List OrderRow) : List (Nat × String) :=
  rows.map fun r => (r.id, r.ts.iso)

def ordEdges (custs : List (Nat × (String × String))) : List OrderRow → List (Nat × Nat)
  | [] => []
  | r :: rows =>
    if (alookup r.customer_id custs).isSome then
      (r.customer_id, r.id) :: ordEdges custs rows
    else ordEdges custs rows

def itemWrites (os : List (Nat × String)) (ps : List (Nat × (String × Int))) :
    List OrderItemRow → List ((Nat × Nat) × Int)
  | [] => []
  | r :: rows =>
    if (alookup r.order_id os).isSome && (alookup r.product_id ps).isSome then
      ((r.order_id, r.product_id), r.quantity) :: itemWrites os ps rows
    else itemWrites os ps rows

def evWrites (cs : List (Nat × (String × String))) (ps : List (Nat × (String × Int))) :
    List EventRow → List ((Nat × Nat × String) × String)
  | [] => []
  | r :: rows =>
    if (alookup r.customer_id cs).isSome && (alookup r.product_id ps).isSome then
      ((r.customer_id, r.product_id, upperAscii r.event_type), r.ts.iso) :: evWrites cs ps rows
    else evWrites cs ps rows

theorem loadCategories_eq (g : PropGraph) (rows : List CategoryRow) :
    loadCategories g rows = { g with cats := upsertFold g.cats (catWrites rows) } := by
  induction rows generalizing g with
  | nil => rfl
  | cons r rows ih =>
    show loadCategories (loadCategory g r) rows = _
    rw [ih]
    rfl

theorem loadProducts_eq (g : PropGraph) (rows : List ProductRow) :
    loadProducts g rows =
      { g with
          prods := upsertFold g.prods (prodWrites rows),
          inCat := insertAll g.inCat (prodEdges g.cats rows) } := by
  induction rows generalizing g with
  | nil => rfl
  | cons r rows ih =>
    show loadProducts (loadProduct g r) rows = _
    rw [ih]
    by_cases h : (alookup r.category_id g.cats).isSome = true
    · simp only [loadProduct, prodEdges, h, if_true]
      rfl
    · simp only [loadProduct, prodEdges, h, if_false]
      rfl

theorem loadCustomers_eq (g : PropGraph) (rows : List CustomerRow) :
    loadCustomers g rows = { g with custs := upsertFold g.custs (custWrites rows) } := by
  induction rows generalizing g with
  | nil => rfl
  | cons r rows ih =>
    show loadCustomers (loadCustomer g r) rows = _
    rw [ih]
    rfl

theorem loadOrders_eq (g : PropGraph) (rows : List OrderRow) :
    loadOrders g rows =
      ({ g with
          orders := upsertFold g.orders (ordWrites (rows.takeWhile fun r => r.ts.isValid)),
          placed := insertAll g.placed (ordEdges g.custs (rows.takeWhile fun r => r.ts.isValid)) },
        !(rows.all fun r => r.ts.isValid)) := by
  induction rows generalizing g with
  | nil => rfl
  | cons r rows ih =>
    by_cases hv : r.ts.isValid = true
    · by_cases hc : (alookup r.customer_id g.custs).isSome = true
      · have step : loadOrders g (r :: rows) =
            loadOrders { g with orders := upsert r.id r.ts.iso g.orders,
                                placed := insertEdge (r.customer_id, r.id) g.placed } rows := by
          simp only [loadOrders, hv, hc, if_true]
        rw [step, ih]
        simp only [List.takeWhile_cons, hv, if_true, List.all_cons, Bool.true_and,
          ordWrites, List.map_cons, ordEdges, hc, upsertFold_cons, insertAll_cons]
      · have step : loadOrders g (r :: rows) =
            loadOrders { g with orders := upsert r.id r.ts.iso g.orders } rows := by
          simp only [loadOrders, hv, if_true, eq_self_iff_true, if_neg hc]
        rw [step, ih]
        simp only [List.takeWhile_cons, hv, if_true, eq_self_iff_true, List.all_cons,
          Bool.true_and, ordWrites, List.map_cons, ordEdges, if_neg hc, upsertFold_cons]
    · have hvf : r.ts.isValid = false := by
        cases hb : r.ts.isValid
        · rfl
        · exact absurd hb hv
      have step : loadOrders g (r :: rows) = (g, true) := by
        simp only [loadOrders, hvf, Bool.false_eq_true, if_false]
      rw [step]
      simp only [List.takeWhile_cons, hvf, Bool.false_eq_true, if_false,
        List.all_cons, Bool.false_and, Bool.not_false, ordWrites, List.map_nil,
        ordEdges, upsertFold_nil, insertAll_nil]

theorem loadOrderItems_eq (g : PropGraph) (rows : List OrderItemRow) :
    loadOrderItems g rows =
      { g with contains := upsertFold g.contains (itemWrites g.orders g.prods rows) } := by
  induction rows generalizing g with
  | nil => rfl
  | cons r rows ih =>
    show loadOrderItems (loadOrderItem g r) rows = _
    rw [ih]
    by_cases h : ((alookup r.order_id g.orders).isSome &&
        (alookup r.product_id g.prods).isSome) = true
    · simp only [loadOrderItem, itemWrites, h, if_true]
      rfl
    · simp only [loadOrderItem, itemWrites, h, if_false]
      rfl

theorem loadEvents_eq (g : PropGraph) (rows : List EventRow) :
    loadEvents g rows =
      ({ g with
          inter := upsertFold g.inter
            (evWrites g.custs g.prods (rows.takeWhile fun r => r.ts.isValid)) },
        !(rows.all fun r => r.ts.isValid)) := by
  induction rows generalizing g with
  | nil => rfl
  | cons r rows ih =>
    by_cases hv : r.ts.isValid = true
    · by_cases hc : ((alookup r.customer_id g.custs).isSome &&
          (alookup r.product_id g.prods).isSome) = true
      · have step : loadEvents g (r :: rows) =
            loadEvents { g with
              inter := upsert (r.customer_id, r.product_id, upperAscii r.event_type)
                r.ts.iso g.inter } rows := by
          simp only [loadEvents, hv, hc, if_true]
        rw [step, ih]
        simp only [List.takeWhile_cons, hv, if_true, List.all_cons, Bool.true_and,
          evWrites, hc, upsertFold_cons]
      · have step : loadEvents g (r :: rows) = loadEvents g rows := by
          simp only [loadEvents, hv, if_true, eq_self_iff_true, if_neg hc]
        rw [step, ih]
        simp only [List.takeWhile_cons, hv, if_true, eq_self_iff_true, List.all_cons,
          Bool.true_and, evWrites, if_neg hc]
    · have hvf : r.ts.isValid = false := by
        cases hb : r.ts.isValid
        · rfl
        · exact absurd hb hv
      have step : loadEvents g (r :: rows) = (g, true) := by
        simp only [loadEvents, hvf, Bool.false_eq_true, if_false]
      rw [step]
      simp only [List.takeWhile_cons, hvf, Bool.false_eq_true, if_false,
        List.all_cons, Bool.false_and, Bool.not_false, evWrites, upsertFold_nil]

theorem nodup_keysOf_nil {κ α : Type} [DecidableEq κ] :
    (keysOf ([] : List (κ × α))).Nodup := by
  simp [keysOf]

/-- C2: the full load is idempotent: replaying `etl()` over the graph it
produced, with the same source data, reproduces that graph exactly (and the
same abort status), because every node merge is keyed by natural id and
every relationship merge by its endpoint tuple. -/
theorem etl_idempotent (d : SourceData) :
    etlLoad (etlLoad emptyPG d).1 d = etlLoad emptyPG d := by
  simp only [etlLoad, loadCategories_eq, loadProducts_eq, loadCustomers_eq,
    loadOrders_eq, loadOrderItems_eq, loadEvents_eq, emptyPG]
  cases hall : d.orders.all (fun r => r.ts.isValid) <;>
    simp only [hall, Bool.not_false, Bool.not_true, Bool.false_eq_true,
      if_true, if_false]
  · rw [upsertFold_idem _ [] nodup_keysOf_nil, upsertFold_idem _ [] nodup_keysOf_nil,
      upsertFold_idem _ [] nodup_keysOf_nil, upsertFold_idem _ [] nodup_keysOf_nil,
      insertAll_idem, insertAll_idem]
  · rw [upsertFold_idem _ [] nodup_keysOf_nil, upsertFold_idem _ [] nodup_keysOf_nil,
      upsertFold_idem _ [] nodup_keysOf_nil, upsertFold_idem _ [] nodup_keysOf_nil,
      insertAll_idem, insertAll_idem,
      upsertFold_idem _ [] nodup_keysOf_nil, upsertFold_idem _ [] nodup_keysOf_nil]

/-! ### Generic helpers about write lists and lookups -/

theorem alookup_isSome_iff_mem_keysOf {κ α : Type} [DecidableEq κ] {k : κ}
    {m : List (κ × α)} : (alookup k m).isSome = true ↔ k ∈ keysOf m := by
  induction m with
  | nil => simp [alookup, keysOf]
  | cons kv t ih =>
    by_cases h : k = kv.1
    · simp [alookup, h, keysOf_cons]
    · simp [alookup, h, keysOf_cons, ih]

theorem takeWhile_eq_self_of_all {α : Type} (p : α → Bool) (l : List α)
    (h : ∀ a ∈ l, p a = true) : l.takeWhile p = l := by
  induction l with
  | nil => rfl
  | cons a l ih =>
    rw [List.takeWhile_cons, if_pos (h a (List.mem_cons_self a l)),
      ih fun b hb => h b (List.mem_cons_of_mem a hb)]

theorem takeWhile_append_stop {α : Type} (p : α → Bool) (pre post : List α)
    (bad : α) (hpre : ∀ a ∈ pre, p a = true) (hbad : p bad = false) :
    ((pre ++ bad :: post).takeWhile p) = pre := by
  induction pre with
  | nil => simp [List.takeWhile_cons, hbad]
  | cons a pre ih =>
    rw [List.cons_append, List.takeWhile_cons,
      if_pos (hpre a (List.mem_cons_self a pre)),
      ih fun b hb => hpre b (List.mem_cons_of_mem a hb)]

theorem all_append_stop {α : Type} (p : α → Bool) (pre post : List α)
    (bad : α) (hbad : p bad = false) :
    ((pre ++ bad :: post).all p) = false := by
  simp [List.all_append, List.all_cons, hbad]

theorem mem_prodEdges {cats : List (Nat × String)} {rows : List ProductRow}
    {e : Nat × Nat} :
    e ∈ prodEdges cats rows ↔
      ∃ r ∈ rows, (alookup r.category_id cats).isSome = true ∧
        e = (r.id, r.category_id) := by
  induction rows with
  | nil => simp [prodEdges]
  | cons r rows ih =>
    by_cases h : (alookup r.category_id cats).isSome = true
    · simp only [prodEdges, if_pos h, List.mem_cons, ih]
      constructor
      · rintro (he | ⟨r2, hr2, hs, he⟩)
        · exact ⟨r, Or.inl rfl, h, he⟩
        · exact ⟨r2, Or.inr hr2, hs, he⟩
      · rintro ⟨r2, hr2 | hr2, hs, he⟩
        · subst hr2
          exact Or.inl he
        · exact Or.inr ⟨r2, hr2, hs, he⟩
    · simp only [prodEdges, if_neg h, List.mem_cons, ih]
      constructor
      · rintro ⟨r2, hr2, hs, he⟩
        exact ⟨r2, Or.inr hr2, hs, he⟩
      · rintro ⟨r2, hr2 | hr2, hs, he⟩
        · subst hr2
          exact absurd hs h
        · exact ⟨r2, hr2, hs, he⟩

theorem mem_evWrites_of_mem {cs : List (Nat × (String × String))}
    {ps : List (Nat × (String × Int))} {rows : List EventRow} {r : EventRow}
    (hmem : r ∈ rows)
    (hcust : (alookup r.customer_id cs).isSome = true)
    (hprod : (alookup r.product_id ps).isSome = true) :
    ((r.customer_id, r.product_id, upperAscii r.event_type), r.ts.iso) ∈
      evWrites cs ps rows := by
  induction rows with
  | nil => simp at hmem
  | cons r2 rows ih =>
    rw [List.mem_cons] at hmem
    rcases hmem with h | h
    · subst h
      simp [evWrites, hcust, hprod]
    · by_cases hc : ((alookup r2.customer_id cs).isSome &&
          (alookup r2.product_id ps).isSome) = true
      · simp only [evWrites, hc, if_true, List.mem_cons]
        exact Or.inr (ih h)
      · simp only [evWrites, hc, if_false]
        exact ih h

theorem eq_singleton_of_nodup {α : Type} {l : List α} {a : α} (hnd : l.Nodup)
    (hall : ∀ x ∈ l, x = a) (hmem : a ∈ l) : l = [a] := by
  cases l with
  | nil => simp at hmem
  | cons x t =>
    have hx : x = a := hall x (List.mem_cons_self x t)
    subst hx
    cases t with
    | nil => rfl
    | cons y t2 =>
      have hy : y = x := hall y (by simp)
      rw [List.nodup_cons] at hnd
      exact absurd (by simp [hy]) hnd.1

/-- The IN_CATEGORY edges of a finished (or aborted) run are exactly the
product-stage merges: later stages never touch them. -/
theorem etlLoad_inCat (g : PropGraph) (d : SourceData) :
    (etlLoad g d).1.inCat =
      insertAll g.inCat
        (prodEdges (upsertFold g.cats (catWrites d.categories)) d.products) := by
  simp only [etlLoad, loadCategories_eq, loadProducts_eq, loadCustomers_eq,
    loadOrders_eq, loadOrderItems_eq, loadEvents_eq]
  cases hall : d.orders.all (fun r => r.ts.isValid) <;> simp [hall]

/-! ### C1: failure policy of the row loop -/

def dC1 : SourceData :=
  { categories := [⟨1, "Books"⟩],
    products := [⟨10, "Go Guide", 29, 1⟩],
    customers := [⟨1, "Alice", "2024-01-01"⟩],
    orders := [⟨1, 1, Ts.valid "2024-02-01T00:00:00"⟩, ⟨2, 1, Ts.malformed⟩,
               ⟨3, 1, Ts.valid "2024-02-03T00:00:00"⟩],
    order_items := [⟨1, 10, 2⟩],
    events := [⟨1, 10, "view", Ts.valid "2024-02-01T01:00:00"⟩] }

/-- C1 counterexample: on source data whose second order row has a malformed
timestamp, the run aborts at that row: order 3, a later row of the same
batch, is never loaded, and the (well-formed) order-items and events stages
never run at all — the failure is not contained to the failing row. -/
theorem etl_row_failure_aborts_run :
    (etlLoad emptyPG dC1).2 = true ∧
    alookup 3 (etlLoad emptyPG dC1).1.orders = none ∧
    alookup 1 (etlLoad emptyPG dC1).1.orders = some "2024-02-01T00:00:00" ∧
    (etlLoad emptyPG dC1).1.contains = [] ∧
    (etlLoad emptyPG dC1).1.inter = [] := by
  decide

/-- C1 (amended): a row whose timestamp conversion raises is not caught by
the loader: the orders batch stops at that row (rows before it stay loaded,
rows after it are lost) and the run aborts, so the order-items and events
stages are never executed.  Only schema-file statements have their failures
caught and logged. -/
theorem etl_malformed_ts_aborts (d : SourceData) (pre post : List OrderRow)
    (bad : OrderRow) (hsplit : d.orders = pre ++ bad :: post)
    (hpre : ∀ r ∈ pre, r.ts.isValid = true) (hbad : bad.ts.isValid = false) :
    etlLoad emptyPG d =
      ((loadOrders (loadCustomers (loadProducts (loadCategories emptyPG
          d.categories) d.products) d.customers) pre).1, true) ∧
    (etlLoad emptyPG d).1.contains = [] ∧ (etlLoad emptyPG d).1.inter = [] := by
  have hall : (d.orders.all fun r => r.ts.isValid) = false := by
    rw [hsplit]
    exact all_append_stop _ pre post bad hbad
  have htw : (d.orders.takeWhile fun r => r.ts.isValid) = pre := by
    rw [hsplit]
    exact takeWhile_append_stop _ pre post bad hpre hbad
  have htwpre : (pre.takeWhile fun r => r.ts.isValid) = pre :=
    takeWhile_eq_self_of_all _ pre hpre
  simp only [etlLoad, loadCategories_eq, loadProducts_eq, loadCustomers_eq,
    loadOrders_eq, emptyPG, hall, htw, htwpre, Bool.not_false, if_true]
  refine ⟨?_, ?_, ?_⟩ <;> trivial

/-- C1 amended-claim witness at the concrete data `dC1`. -/
theorem etl_malformed_ts_aborts_witness :
    etlLoad emptyPG dC1 =
      ((loadOrders (loadCustomers (loadProducts (loadCategories emptyPG
          dC1.categories) dC1.products) dC1.customers)
          [⟨1, 1, Ts.valid "2024-02-01T00:00:00"⟩]).1, true) ∧
    (etlLoad emptyPG dC1).1.contains = [] ∧ (etlLoad emptyPG dC1).1.inter = [] :=
  etl_malformed_ts_aborts dC1 [⟨1, 1, Ts.valid "2024-02-01T00:00:00"⟩]
    [⟨3, 1, Ts.valid "2024-02-03T00:00:00"⟩] ⟨2, 1, Ts.malformed⟩ rfl
    (by decide) rfl

/-! ### C3: products and their IN_CATEGORY relationship -/

def dC3 : SourceData :=
  { categories := [],
    products := [⟨10, "Widget", 5, 1⟩],
    customers := [], orders := [], order_items := [], events := [] }

/-- C3 counterexample: product 10 arrives while its category (id 1) is
absent from the source; the category side of the relationship is `MATCH`ed,
not merged, so the load finishes without error, the product node exists,
and it has zero IN_CATEGORY relationships — not exactly one. -/
theorem product_without_category_loses_edge :
    (alookup 10 (etlLoad emptyPG dC3).1.prods).isSome = true ∧
    (etlLoad emptyPG dC3).1.inCat = [] ∧
    (etlLoad emptyPG dC3).2 = false := by
  decide

/-- C3 (amended): after a load from an empty graph, a product P whose source
rows all name one category C that is itself among the source categories ends
with exactly one IN_CATEGORY relationship, and it points to C.  (The loader
merges only the product side; the category must already be in the source for
the edge to exist, and categories are always loaded before products.) -/
theorem product_in_category_unique (d : SourceData) (P C : Nat)
    (hrow : ∃ r ∈ d.products, r.id = P)
    (hcat : ∀ r ∈ d.products, r.id = P → r.category_id = C)
    (hC : ∃ c ∈ d.categories, c.id = C) :
    ((etlLoad emptyPG d).1.inCat.filter fun e => e.1 == P) = [(P, C)] := by
  rw [etlLoad_inCat]
  have hCkey : (alookup C (upsertFold emptyPG.cats (catWrites d.categories))).isSome = true := by
    rw [alookup_isSome_iff_mem_keysOf]
    obtain ⟨c, hc, hcid⟩ := hC
    have : (c.id, c.name) ∈ catWrites d.categories :=
      List.mem_map_of_mem _ hc
    have := mem_keysOf_upsertFold_of_mem_writes (m := emptyPG.cats) this
    rwa [hcid] at this
  have hmemPC : ((P, C) : Nat × Nat) ∈
      insertAll emptyPG.inCat
        (prodEdges (upsertFold emptyPG.cats (catWrites d.categories)) d.products) := by
    obtain ⟨r, hr, hrid⟩ := hrow
    have hrc : r.category_id = C := hcat r hr hrid
    refine mem_insertAll_of_mem_list (mem_prodEdges.mpr ⟨r, hr, ?_, ?_⟩)
    · rw [hrc]
      exact hCkey
    · rw [hrid, hrc]
  have hall2 : ∀ x ∈ (insertAll emptyPG.inCat
      (prodEdges (upsertFold emptyPG.cats (catWrites d.categories))
        d.products)).filter (fun e => e.1 == P), x = (P, C) := by
    intro x hx
    rw [List.mem_filter] at hx
    obtain ⟨hxmem, hxP⟩ := hx
    rw [mem_insertAll_iff] at hxmem
    rcases hxmem with hxmem | hxmem
    · simp [emptyPG] at hxmem
    · obtain ⟨r, hr, _, hxe⟩ := mem_prodEdges.mp hxmem
      have hxP2 : x.1 = P := by
        simpa using hxP
      have hrid : r.id = P := by
        rw [hxe] at hxP2
        exact hxP2
      have hrc : r.category_id = C := hcat r hr hrid
      rw [hxe, hrid, hrc]
  refine eq_singleton_of_nodup (List.Nodup.filter _ ?_) hall2 ?_
  · exact nodup_insertAll (by simp [emptyPG])
  · rw [List.mem_filter]
    exact ⟨hmemPC, by simp⟩

def dC3w : SourceData :=
  { categories := [⟨1, "Books"⟩],
    products := [⟨10, "Go Guide", 29, 1⟩],
    customers := [], orders := [], order_items := [], events := [] }

/-- C3 amended-claim witness: in `dC3w`, product 10 ends with exactly the
one edge to category 1. -/
theorem product_in_category_unique_witness :
    ((etlLoad emptyPG dC3w).1.inCat.filter fun e => e.1 == 10) = [(10, 1)] :=
  product_in_category_unique dC3w 10 1 ⟨⟨10, "Go Guide", 29, 1⟩, by decide, rfl⟩
    (by decide) ⟨⟨1, "Books"⟩, by decide, rfl⟩

/-! ### C4: relationship-type labels from event types -/

def dC4 : SourceData :=
  { categories := [],
    products := [⟨10, "Gadget", 5, 1⟩],
    customers := [⟨7, "Carol", "2024-01-01"⟩],
    orders := [], order_items := [],
    events := [⟨7, 10, "purchase_from_partner", Ts.valid "2024-03-01T00:00:00"⟩] }

/-- C4 counterexample: an event whose type is outside the known set
VIEW / CLICK / ADD_TO_CART (the only types the source comments anticipate)
is neither rejected nor logged: the run succeeds, prints the same trace as
a run with no events at all, and creates an interaction edge whose
relationship type is the upper-cased untrusted string itself. -/
theorem unknown_event_type_interpolated :
    alookup (7, 10, "PURCHASE_FROM_PARTNER") (etlLoad emptyPG dC4).1.inter
      = some "2024-03-01T00:00:00" ∧
    ¬ ("PURCHASE_FROM_PARTNER" ∈ (["VIEW", "CLICK", "ADD_TO_CART"] : List String)) ∧
    (etlLoad emptyPG dC4).2 = false ∧
    etlLog dC4 = etlLog { dC4 with events := [] } := by
  decide

/-- C4 (amended): the loader builds the relationship label by upper-casing
the event-type string and interpolating it into the query text: for every
event row with a well-formed timestamp whose endpoints exist, an interaction
edge whose type is exactly `upperAscii r.event_type` exists after the events
stage — whatever the value, with no allow-list check, rejection, or log. -/
theorem event_type_label_interpolated (g : PropGraph) (rows : List EventRow)
    (r : EventRow) (hmem : r ∈ rows) (hval : ∀ r2 ∈ rows, r2.ts.isValid = true)
    (hcust : (alookup r.customer_id g.custs).isSome = true)
    (hprod : (alookup r.product_id g.prods).isSome = true) :
    (r.customer_id, r.product_id, upperAscii r.event_type) ∈
      keysOf (loadEvents g rows).1.inter := by
  rw [loadEvents_eq]
  have htw : (rows.takeWhile fun r => r.ts.isValid) = rows :=
    takeWhile_eq_self_of_all _ rows hval
  show (r.customer_id, r.product_id, upperAscii r.event_type) ∈
    keysOf (upsertFold g.inter (evWrites g.custs g.prods
      (rows.takeWhile fun r => r.ts.isValid)))
  rw [htw]
  exact mem_keysOf_upsertFold_of_mem_writes
    (mem_evWrites_of_mem hmem hcust hprod)

def gC4w : PropGraph :=
  { emptyPG with
      custs := [(7, ("Carol", "2024-01-01"))],
      prods := [(10, ("Gadget", 5))] }

/-- C4 amended-claim witness: the arbitrary label PURCHASE_FROM_PARTNER ends
up as an interaction edge type. -/
theorem event_type_label_interpolated_witness :
    (7, 10, upperAscii "purchase_from_partner") ∈
      keysOf (loadEvents gC4w
        [⟨7, 10, "purchase_from_partner", Ts.valid "2024-03-01T00:00:00"⟩]).1.inter ∧
    upperAscii "purchase_from_partner" = "PURCHASE_FROM_PARTNER" :=
  ⟨event_type_label_interpolated gC4w
      [⟨7, 10, "purchase_from_partner", Ts.valid "2024-03-01T00:00:00"⟩]
      ⟨7, 10, "purchase_from_partner", Ts.valid "2024-03-01T00:00:00"⟩
      (by decide) (by decide) (by decide) (by decide),
    by decide⟩

/-! ### C5: events with missing endpoints -/

def dC5 : SourceData :=
  { categories := [], products := [],
    customers := [⟨1, "Alice", "2024-01-01"⟩],
    orders := [], order_items := [],
    events := [⟨1, 99, "view", Ts.valid "2024-03-01T00:00:00"⟩] }

/-- C5 counterexample: an event row whose product endpoint (id 99) is absent
from the graph is skipped and is indeed not fatal — but nothing is reported:
no interaction edge is created, and the printed trace is identical to that
of a run without the row, so no MissingEndpoint is logged anywhere. -/
theorem missing_endpoint_unreported :
    (etlLoad emptyPG dC5).2 = false ∧
    (etlLoad emptyPG dC5).1.inter = [] ∧
    etlLog dC5 = etlLog { dC5 with events := [] } := by
  decide

/-- C5 (amended): an event row with a well-formed timestamp but a missing
endpoint has no effect at all: the events stage behaves exactly as if the
row were not there — the row is silently skipped, the batch continues, the
run is not aborted by it, and the log does not change. -/
theorem missing_endpoint_skipped (g : PropGraph) (r : EventRow)
    (rest : List EventRow) (hval : r.ts.isValid = true)
    (hmiss : ((alookup r.customer_id g.custs).isSome &&
      (alookup r.product_id g.prods).isSome) = false) :
    loadEvents g (r :: rest) = loadEvents g rest ∧
    ∀ d : SourceData,
      etlLog { d with events := r :: rest } = etlLog { d with events := rest } := by
  constructor
  · have hc : ¬ (((alookup r.customer_id g.custs).isSome &&
        (alookup r.product_id g.prods).isSome) = true) := by
      simp [hmiss]
    simp only [loadEvents, hval, if_true, eq_self_iff_true, if_neg hc]
  · intro d
    simp [etlLog, List.all_cons, hval]

def gC5w : PropGraph := { emptyPG with custs := [(1, ("Alice", "2024-01-01"))] }

/-- C5 amended-claim witness at a concrete graph and row. -/
theorem missing_endpoint_skipped_witness :
    loadEvents gC5w [⟨1, 99, "view", Ts.valid "2024-03-01T00:00:00"⟩] =
      loadEvents gC5w [] ∧
    etlLog { dC5 with events := [⟨1, 99, "view", Ts.valid "2024-03-01T00:00:00"⟩] } =
      etlLog { dC5 with events := [] } := by
  have h := missing_endpoint_skipped gC5w
    ⟨1, 99, "view", Ts.valid "2024-03-01T00:00:00"⟩ [] (by decide) (by decide)
  exact ⟨h.1, h.2 dC5⟩

/-! ### The recommendation queries (`app/main.py`)

Each Cypher read is modelled denotationally.  The deterministic part — the
matched rows and the aggregated scores — is computed by the functions below.
`ORDER BY key DESC LIMIT k` constrains only the key, so a query result is
any permutation of the scored rows that is sorted by the key, truncated to
`k` (`IsTopK`); the relative order of tied rows and the choice at the cut
are not specified by the query text. -/

/-- `out` is a valid result of sorting `all` by `score` descending and
keeping the first `k` rows. -/
def IsTopK {α β : Type} [LinearOrder β] (score : α → β) (all : List α)
    (k : Nat) (out : List α) : Prop :=
  ∃ ranked, List.Perm all ranked ∧
    List.Pairwise (fun a b => score b ≤ score a) ranked ∧ out = ranked.take k

/-- Rows sorted (weakly) descending by `score`. -/
def SortedDescBy {α β : Type} [LinearOrder β] (score : α → β) (l : List α) : Prop :=
  List.Pairwise (fun a b => score b ≤ score a) l

/-- The purchase paths
`(c:Customer {id: cid})-[:PLACED]->(o:Order)-[:CONTAINS]->(p:Product)`
of one customer: one row per (PLACED edge, CONTAINS edge) pair, given as
(order id, product id).  All three node labels must match. -/
def purchasePaths (g : PropGraph) (cid : Nat) : List (Nat × Nat) :=
  if (alookup cid g.custs).isSome then
    (g.placed.filter fun e => e.1 == cid).flatMap fun e =>
      if (alookup e.2 g.orders).isSome then
        (g.contains.filter fun ce => ce.1.1 == e.2).filterMap fun ce =>
          if (alookup ce.1.2 g.prods).isSome then some (e.2, ce.1.2) else none
      else []
  else []

/-- `collect(p)` of `main.py` 140-141, as the product ids (membership is
what the query uses it for). -/
def purchaseSet (g : PropGraph) (cid : Nat) : List Nat :=
  (purchasePaths g cid).map Prod.snd

/-- `main.py` 143-145: `count(p)` per other customer — the number of that
customer's purchase paths leading to a product in the target's collection. -/
def overlapCount (g : PropGraph) (cset : List Nat) (other : Nat) : Nat :=
  ((purchasePaths g other).filter fun pr => cset.contains pr.2).length

/-- The neighbour candidates of `main.py` 143-147: every other customer
with at least one overlapping purchase path, scored by `overlapCount`
(grouping produces no row for customers with zero matches). -/
def neighborScores (g : PropGraph) (cid : Nat) : List (Nat × Nat) :=
  (keysOf g.custs).filterMap fun o =>
    if o = cid then none
    else
      if overlapCount g (purchaseSet g cid) o = 0 then none
      else some (o, overlapCount g (purchaseSet g cid) o)

/-- `main.py` 149-150: rows (other, rec) over the chosen neighbours'
purchase paths to products the target customer has not purchased. -/
def neighborRecRows (g : PropGraph) (cset : List Nat) (neigh : List Nat) :
    List (Nat × Nat) :=
  neigh.flatMap fun o =>
    (purchasePaths g o).filterMap fun pr =>
      if cset.contains pr.2 then none else some (o, pr.2)

/-- `count(DISTINCT other)` of `main.py` 151 for one candidate product. -/
def distinctBuyers (g : PropGraph) (cset : List Nat) (neigh : List Nat)
    (rec : Nat) : Nat :=
  (((neighborRecRows g cset neigh).filter fun row => row.2 == rec).map
    Prod.fst).dedup.length

/-- The candidate products of `main.py` 149-151 with their scores. -/
def recScores (g : PropGraph) (cset : List Nat) (neigh : List Nat) :
    List (Nat × Nat) :=
  ((neighborRecRows g cset neigh).map Prod.snd).dedup.map fun rec =>
    (rec, distinctBuyers g cset neigh rec)

/-- One output row of a recommendation endpoint. -/
structure RecItem (β : Type) where
  productId : Nat
  productName : String
  price : Int
  category : String
  score : β
  deriving DecidableEq

/-- The trailing `MATCH (x)-[:IN_CATEGORY]->(cat:Category) RETURN ...` each
recommendation query ends with: every ranked row is joined with the
product's category edges; a product with no category edge yields no output
row. -/
def catJoin {β : Type} (g : PropGraph) (ranked : List (Nat × β)) :
    List (RecItem β) :=
  ranked.flatMap fun e =>
    match alookup e.1 g.prods with
    | none => []
    | some pa =>
      (g.inCat.filter fun ic => ic.1 == e.1).filterMap fun ic =>
        (alookup ic.2 g.cats).map fun cn =>
          ⟨e.1, pa.1, pa.2, cn, e.2⟩

/-- `main.py` 128-170 `collaborative_filtering` (its Cypher, lines
139-158): valid outputs for a customer and limit. -/
def collabSpec (g : PropGraph) (cid : Nat) (lim : Nat)
    (out : List (RecItem Nat)) : Prop :=
  ∃ ns rs, IsTopK Prod.snd (neighborScores g cid) 10 ns ∧
    IsTopK Prod.snd (recScores g (purchaseSet g cid) (ns.map Prod.fst)) lim rs ∧
    out = catJoin g rs

/-- The `CONTAINS` rows with both labelled endpoints present
(`main.py` 222). -/
def containsRows (g : PropGraph) : List ((Nat × Nat) × Int) :=
  g.contains.filter fun ce =>
    (alookup ce.1.1 g.orders).isSome && (alookup ce.1.2 g.prods).isSome

/-- `main.py` 223: `sum(r.quantity)` for one product. -/
def totalSold (g : PropGraph) (p : Nat) : Int :=
  (((containsRows g).filter fun ce => ce.1.2 == p).map Prod.snd).sum

/-- The products appearing in at least one order, with their totals. -/
def popScores (g : PropGraph) : List (Nat × Int) :=
  ((containsRows g).map fun ce => ce.1.2).dedup.map fun p => (p, totalSold g p)

/-- `main.py` 213-242 `popular_products` (its Cypher, lines 221-230):
valid outputs for a limit; no customer enters the definition. -/
def popSpec (g : PropGraph) (lim : Nat) (out : List (RecItem Int)) : Prop :=
  ∃ rs, IsTopK Prod.snd (popScores g) lim rs ∧ out = catJoin g rs

/-- `main.py` 256-257: rows (order, rec) for orders that contain the given
product together with a different product. -/
def coRows (g : PropGraph) (pid : Nat) : List (Nat × Nat) :=
  if (alookup pid g.prods).isSome then
    (g.contains.filter fun ce =>
        ce.1.2 == pid && (alookup ce.1.1 g.orders).isSome).flatMap fun ce =>
      (g.contains.filter fun ce2 =>
          ce2.1.1 == ce.1.1 && !(ce2.1.2 == pid)).filterMap fun ce2 =>
        if (alookup ce2.1.2 g.prods).isSome then some (ce.1.1, ce2.1.2) else none
  else []

/-- `count(DISTINCT o)` of `main.py` 258 — distinct orders containing both
products. -/
def coCount (g : PropGraph) (pid rec : Nat) : Nat :=
  (((coRows g pid).filter fun row => row.2 == rec).map Prod.fst).dedup.length

def coScores (g : PropGraph) (pid : Nat) : List (Nat × Nat) :=
  ((coRows g pid).map Prod.snd).dedup.map fun rec => (rec, coCount g pid rec)

/-- `main.py` 245-277 `frequently_bought_together` (its Cypher, lines
255-265): valid outputs for a product and limit. -/
def fbtSpec (g : PropGraph) (pid : Nat) (lim : Nat)
    (out : List (RecItem Nat)) : Prop :=
  ∃ rs, IsTopK Prod.snd (coScores g pid) lim rs ∧ out = catJoin g rs

/-- `main.py` 185-186: the distinct categories of products the customer has
purchased, via paths extended with a labelled `IN_CATEGORY` edge. -/
def likedCats (g : PropGraph) (cid : Nat) : List Nat :=
  ((purchasePaths g cid).flatMap fun pr =>
    (g.inCat.filter fun ic => ic.1 == pr.2).filterMap fun ic =>
      if (alookup ic.2 g.cats).isSome then some ic.2 else none).dedup

/-- `main.py` 188-192: (rec, cat) rows — a product of a liked category that
the customer has not purchased, one row per IN_CATEGORY edge. -/
def contentRows (g : PropGraph) (cid : Nat) : List (Nat × Nat) :=
  g.prods.flatMap fun pe =>
    (g.inCat.filter fun ic => ic.1 == pe.1).filterMap fun ic =>
      if (alookup ic.2 g.cats).isSome && (likedCats g cid).contains ic.2 &&
          !((purchaseSet g cid).contains pe.1)
      then some (pe.1, ic.2) else none

/-- `main.py` 193: `count(*)` per (rec, cat) group. -/
def contentGrouped (g : PropGraph) (cid : Nat) : List ((Nat × Nat) × Nat) :=
  (contentRows g cid).dedup.map fun rc => (rc, (contentRows g cid).count rc)

/-- One output row of `content_based` or `list_products` (no score in the
RETURN). -/
structure ProdItem where
  productId : Nat
  productName : String
  price : Int
  category : String
  deriving DecidableEq

/-- `main.py` 173-210 `content_based` (its Cypher, lines 184-199): valid
outputs for a customer and limit. -/
def contentSpec (g : PropGraph) (cid : Nat) (lim : Nat)
    (out : List ProdItem) : Prop :=
  ∃ rs, IsTopK Prod.snd (contentGrouped g cid) lim rs ∧
    out = rs.filterMap fun e =>
      match alookup e.1.1 g.prods, alookup e.1.2 g.cats with
      | some pa, some cn => some ⟨e.1.1, pa.1, pa.2, cn⟩
      | _, _ => none

/-- `main.py` 75-80: the rows of `list_products`:
`MATCH (p:Product)-[:IN_CATEGORY]->(c:Category)`. -/
def productRows (g : PropGraph) : List ProdItem :=
  g.prods.flatMap fun pe =>
    (g.inCat.filter fun ic => ic.1 == pe.1).filterMap fun ic =>
      (alookup ic.2 g.cats).map fun cn => ⟨pe.1, pe.2.1, pe.2.2, cn⟩

/-- `main.py` 69-91 `list_products`: the rows ordered by product name
(relative order of equal names unspecified). -/
def listProductsSpec (g : PropGraph) (out : List ProdItem) : Prop :=
  ∃ ranked, List.Perm (productRows g) ranked ∧
    List.Pairwise (fun a b : ProdItem => a.productName ≤ b.productName) ranked ∧
    out = ranked

/-! ### Facts about query results -/

theorem IsTopK.eq_nil {α β : Type} [LinearOrder β] {score : α → β} {k : Nat}
    {out : List α} (h : IsTopK score [] k out) : out = [] := by
  obtain ⟨ranked, hperm, _, hout⟩ := h
  have hr : ranked = [] := (List.perm_nil.mp hperm.symm)
  rw [hout, hr]
  exact List.take_nil

theorem IsTopK.sorted {α β : Type} [LinearOrder β] {score : α → β}
    {all : List α} {k : Nat} {out : List α} (h : IsTopK score all k out) :
    SortedDescBy score out := by
  obtain ⟨ranked, _, hsort, hout⟩ := h
  rw [hout]
  exact hsort.sublist (List.take_sublist k ranked)

theorem IsTopK.mem_of_mem {α β : Type} [LinearOrder β] {score : α → β}
    {all : List α} {k : Nat} {out : List α} (h : IsTopK score all k out)
    {x : α} (hx : x ∈ out) : x ∈ all := by
  obtain ⟨ranked, hperm, _, hout⟩ := h
  rw [hout] at hx
  exact hperm.symm.subset (List.take_subset k ranked hx)

theorem IsTopK.length_le {α β : Type} [LinearOrder β] {score : α → β}
    {all : List α} {k : Nat} {out : List α} (h : IsTopK score all k out) :
    out.length ≤ k := by
  obtain ⟨ranked, _, _, hout⟩ := h
  rw [hout]
  exact List.length_take_le k ranked

theorem mem_catJoin {β : Type} {g : PropGraph} {rs : List (Nat × β)}
    {it : RecItem β} (h : it ∈ catJoin g rs) :
    ∃ e ∈ rs, it.productId = e.1 ∧ it.score = e.2 ∧
      ∃ c, (it.productId, c) ∈ g.inCat ∧ alookup c g.cats = some it.category := by
  simp only [catJoin, List.mem_flatMap] at h
  obtain ⟨e, he, hit⟩ := h
  cases hpa : alookup e.1 g.prods with
  | none =>
    rw [hpa] at hit
    simp at hit
  | some pa =>
    rw [hpa] at hit
    simp only [List.mem_filterMap] at hit
    obtain ⟨ic, hic, hmap⟩ := hit
    rw [List.mem_filter] at hic
    obtain ⟨hicmem, hicfst⟩ := hic
    cases hcn : alookup ic.2 g.cats with
    | none =>
      rw [hcn] at hmap
      simp at hmap
    | some cn =>
      rw [hcn] at hmap
      simp only [Option.map_some'] at hmap
      obtain rfl := Option.some.inj hmap
      refine ⟨e, he, rfl, rfl, ic.2, ?_, ?_⟩
      · have hfst : ic.1 = e.1 := by simpa using hicfst
        have : ((e.1, ic.2) : Nat × Nat) = ic := by
          rw [← hfst]
        rw [this]
        exact hicmem
      · exact hcn

theorem catJoin_scores {β : Type} {g : PropGraph} {rs : List (Nat × β)}
    {it : RecItem β} (h : it ∈ catJoin g rs) : ∃ e ∈ rs, it.score = e.2 := by
  obtain ⟨e, he, _, hs, _⟩ := mem_catJoin h
  exact ⟨e, he, hs⟩

theorem catJoin_cons {β : Type} (g : PropGraph) (e : Nat × β)
    (rest : List (Nat × β)) :
    catJoin g (e :: rest) = catJoin g [e] ++ catJoin g rest := by
  simp [catJoin]

theorem catJoin_sorted {β : Type} [LinearOrder β] {g : PropGraph}
    {rs : List (Nat × β)}
    (h : List.Pairwise (fun a b : Nat × β => b.2 ≤ a.2) rs) :
    SortedDescBy RecItem.score (catJoin g rs) := by
  induction rs with
  | nil => exact List.Pairwise.nil
  | cons e rest ih =>
    rw [List.pairwise_cons] at h
    rw [catJoin_cons]
    unfold SortedDescBy
    rw [List.pairwise_append]
    refine ⟨?_, ih h.2, ?_⟩
    · apply List.pairwise_of_forall_mem_list
      intro a ha b hb
      obtain ⟨ea, hea, hsa⟩ := catJoin_scores ha
      obtain ⟨eb, heb, hsb⟩ := catJoin_scores hb
      simp only [List.mem_singleton] at hea heb
      rw [hsa, hsb, hea, heb]
    · intro a ha b hb
      obtain ⟨ea, hea, hsa⟩ := catJoin_scores ha
      obtain ⟨eb, heb, hsb⟩ := catJoin_scores hb
      simp only [List.mem_singleton] at hea
      rw [hsa, hsb, hea]
      exact h.1 eb heb

theorem dedup_count_pos {α : Type} [DecidableEq α] {rows : List (Nat × α)}
    {rec : α} {row : Nat × α} (hrow : row ∈ rows) (hsnd : row.2 = rec) :
    1 ≤ ((rows.filter fun r2 => r2.2 == rec).map Prod.fst).dedup.length := by
  have hmemf : row ∈ rows.filter (fun r2 => r2.2 == rec) :=
    List.mem_filter.mpr ⟨hrow, by simp [hsnd]⟩
  have h1 : row.1 ∈ (rows.filter (fun r2 => r2.2 == rec)).map Prod.fst :=
    List.mem_map_of_mem _ hmemf
  exact List.length_pos_of_mem (List.mem_dedup.mpr h1)

theorem mem_neighborRecRows {g : PropGraph} {cset neigh : List Nat}
    {row : Nat × Nat} (hrow : row ∈ neighborRecRows g cset neigh) :
    row.1 ∈ neigh ∧ cset.contains row.2 = false ∧
      row.2 ∈ (purchasePaths g row.1).map Prod.snd := by
  simp only [neighborRecRows, List.mem_flatMap, List.mem_filterMap] at hrow
  obtain ⟨o, ho, pr, hpr, hif⟩ := hrow
  by_cases hc : cset.contains pr.2 = true
  · rw [if_pos hc] at hif
    cases hif
  · rw [if_neg hc] at hif
    obtain rfl := Option.some.inj hif
    refine ⟨ho, Bool.not_eq_true _ |>.mp hc, ?_⟩
    show pr.2 ∈ (purchasePaths g o).map Prod.snd
    exact List.mem_map_of_mem _ hpr

theorem mem_recScores {g : PropGraph} {cset neigh : List Nat} {e : Nat × Nat}
    (h : e ∈ recScores g cset neigh) :
    e.2 = distinctBuyers g cset neigh e.1 ∧
    cset.contains e.1 = false ∧
    1 ≤ e.2 ∧
    ∃ o ∈ neigh, e.1 ∈ (purchasePaths g o).map Prod.snd := by
  simp only [recScores, List.mem_map] at h
  obtain ⟨rec, hrec, he⟩ := h
  rw [List.mem_dedup, List.mem_map] at hrec
  obtain ⟨row, hrow, hrowsnd⟩ := hrec
  obtain ⟨ho, hcf, hmem⟩ := mem_neighborRecRows hrow
  subst he
  refine ⟨rfl, ?_, ?_, row.1, ho, ?_⟩
  · rw [← hrowsnd]
    exact hcf
  · exact dedup_count_pos hrow hrowsnd
  · rw [← hrowsnd]
    exact hmem

theorem mem_coRows {g : PropGraph} {pid : Nat} {row : Nat × Nat}
    (h : row ∈ coRows g pid) : row.2 ≠ pid := by
  unfold coRows at h
  by_cases hp : (alookup pid g.prods).isSome = true
  · rw [if_pos hp] at h
    simp only [List.mem_flatMap, List.mem_filterMap] at h
    obtain ⟨ce, hce, ce2, hce2, hif⟩ := h
    rw [List.mem_filter] at hce2
    by_cases hq : (alookup ce2.1.2 g.prods).isSome = true
    · rw [if_pos hq] at hif
      obtain rfl := Option.some.inj hif
      have h2 := hce2.2
      rw [Bool.and_eq_true] at h2
      have h3 := h2.2
      rw [Bool.not_eq_true'] at h3
      intro heq
      rw [show ((ce.1.1, ce2.1.2) : Nat × Nat).2 = ce2.1.2 from rfl] at heq
      rw [heq] at h3
      simp at h3
    · rw [if_neg hq] at hif
      cases hif
  · rw [if_neg hp] at h
    simp at h

theorem mem_coScores {g : PropGraph} {pid : Nat} {e : Nat × Nat}
    (h : e ∈ coScores g pid) :
    e.2 = coCount g pid e.1 ∧ e.1 ≠ pid ∧ 1 ≤ e.2 := by
  simp only [coScores, List.mem_map] at h
  obtain ⟨rec, hrec, he⟩ := h
  rw [List.mem_dedup, List.mem_map] at hrec
  obtain ⟨row, hrow, hrowsnd⟩ := hrec
  subst he
  refine ⟨rfl, ?_, ?_⟩
  · rw [← hrowsnd]
    exact mem_coRows hrow
  · exact dedup_count_pos hrow hrowsnd

theorem mem_popScores {g : PropGraph} {e : Nat × Int} (h : e ∈ popScores g) :
    e.2 = totalSold g e.1 ∧ e.1 ∈ (containsRows g).map fun ce => ce.1.2 := by
  simp only [popScores, List.mem_map] at h
  obtain ⟨p, hp, he⟩ := h
  subst he
  exact ⟨rfl, List.mem_dedup.mp hp⟩

theorem mem_productRows {g : PropGraph} {it : ProdItem}
    (h : it ∈ productRows g) :
    ∃ c, (it.productId, c) ∈ g.inCat ∧ (alookup c g.cats).isSome = true := by
  simp only [productRows, List.mem_flatMap, List.mem_filterMap] at h
  obtain ⟨pe, hpe, ic, hic, hmap⟩ := h
  rw [List.mem_filter] at hic
  cases hcn : alookup ic.2 g.cats with
  | none =>
    rw [hcn] at hmap
    cases hmap
  | some cn =>
    rw [hcn] at hmap
    simp only [Option.map_some'] at hmap
    obtain rfl := Option.some.inj hmap
    refine ⟨ic.2, ?_, by rw [hcn]; rfl⟩
    have hfst : ic.1 = pe.1 := by simpa using hic.2
    show ((pe.1, ic.2) : Nat × Nat) ∈ g.inCat
    rw [show ((pe.1, ic.2) : Nat × Nat) = ic from by rw [← hfst]]
    exact hic.1

theorem mem_contentRows {g : PropGraph} {cid : Nat} {rc : Nat × Nat}
    (h : rc ∈ contentRows g cid) :
    (rc.1, rc.2) ∈ g.inCat ∧ (alookup rc.2 g.cats).isSome = true := by
  simp only [contentRows, List.mem_flatMap, List.mem_filterMap] at h
  obtain ⟨pe, hpe, ic, hic, hif⟩ := h
  rw [List.mem_filter] at hic
  by_cases hcond : ((alookup ic.2 g.cats).isSome && (likedCats g cid).contains ic.2 &&
      !((purchaseSet g cid).contains pe.1)) = true
  · rw [if_pos hcond] at hif
    obtain rfl := Option.some.inj hif
    rw [Bool.and_eq_true, Bool.and_eq_true] at hcond
    have hfst : ic.1 = pe.1 := by simpa using hic.2
    refine ⟨?_, hcond.1.1⟩
    show ((pe.1, ic.2) : Nat × Nat) ∈ g.inCat
    rw [show ((pe.1, ic.2) : Nat × Nat) = ic from by rw [← hfst]]
    exact hic.1
  · rw [if_neg hcond] at hif
    cases hif

/-! ### C6: collaborative filtering -/

def gC6 : PropGraph :=
  { cats := [(1, "Cat")],
    prods := [(100, ("P100", 10)), (200, ("P200", 20)), (300, ("P300", 30))],
    custs := [(1, ("Alice", "2024-01-01")), (2, ("Bob", "2024-01-01"))],
    orders := [(1, "t1"), (2, "t2")],
    inCat := [(100, 1), (200, 1), (300, 1)],
    placed := [(1, 1), (2, 2)],
    contains := [((1, 100), 1), ((2, 100), 1), ((2, 200), 1), ((2, 300), 1)],
    inter := [] }

def outC6 : List (RecItem Nat) :=
  [⟨300, "P300", 30, "Cat", 1⟩, ⟨200, "P200", 20, "Cat", 1⟩]

/-- The output order the claim specifies: strictly descending score, with
tied scores broken by ascending product id. -/
def ClaimTieOrder {β : Type} [LinearOrder β] (l : List (RecItem β)) : Prop :=
  List.Pairwise (fun a b : RecItem β =>
    b.score < a.score ∨ (b.score = a.score ∧ a.productId < b.productId)) l

/-- C6 counterexample: for customer 1 of `gC6`, candidates 200 and 300 tie
at score 1, and the output listing 300 before 200 is a valid result of the
query — its Cypher orders by score only, with no secondary key — so the
claimed deterministic ascending-id tie order does not hold. -/
theorem collab_tie_order_not_guaranteed :
    collabSpec gC6 1 5 outC6 ∧ ¬ ClaimTieOrder outC6 := by
  constructor
  · exact ⟨[(2, 1)], [(300, 1), (200, 1)],
      ⟨[(2, 1)], by decide, by decide, by decide⟩,
      ⟨[(300, 1), (200, 1)], by decide, by decide, by decide⟩, by decide⟩
  · intro hcl
    unfold ClaimTieOrder outC6 at hcl
    rw [List.pairwise_cons] at hcl
    have hrel := hcl.1 _ (List.mem_cons_self _ _)
    rcases hrel with hlt | hid
    · exact absurd hlt (by decide)
    · exact absurd hid.2 (by decide)

/-- C6 (amended): every valid collaborative result consists of products
that some chosen top-10 neighbour (ranked by overlapping purchase-path
count) bought and the target customer did not, scored by the number of
distinct such neighbours, sorted by score descending and truncated to the
limit — but the relative order of equal scores (and the choice among tied
neighbours at the top-10 cut) is left unspecified by the query. -/
theorem collab_spec_props (g : PropGraph) (cid lim : Nat)
    (out : List (RecItem Nat)) (h : collabSpec g cid lim out) :
    SortedDescBy RecItem.score out ∧
    ∃ ns, IsTopK Prod.snd (neighborScores g cid) 10 ns ∧
      ∀ it ∈ out,
        (purchaseSet g cid).contains it.productId = false ∧
        it.score = distinctBuyers g (purchaseSet g cid) (ns.map Prod.fst)
          it.productId ∧
        1 ≤ it.score ∧
        ∃ o ∈ ns.map Prod.fst, it.productId ∈ (purchasePaths g o).map Prod.snd := by
  obtain ⟨ns, rs, hns, hrs, hout⟩ := h
  subst hout
  refine ⟨catJoin_sorted hrs.sorted, ns, hns, ?_⟩
  intro it hit
  obtain ⟨e, he, hid, hsc, _⟩ := mem_catJoin hit
  have hescore := mem_recScores (hrs.mem_of_mem he)
  rw [hid, hsc]
  exact ⟨hescore.2.1, hescore.1, hescore.2.2.1, hescore.2.2.2⟩

/-- C6 amended-claim witness: at `gC6`, customer 1, limit 5, output
`outC6`. -/
theorem collab_spec_props_witness : SortedDescBy RecItem.score outC6 :=
  (collab_spec_props gC6 1 5 outC6
    ⟨[(2, 1)], [(300, 1), (200, 1)],
      ⟨[(2, 1)], by decide, by decide, by decide⟩,
      ⟨[(300, 1), (200, 1)], by decide, by decide, by decide⟩, by decide⟩).1

/-! ### C7: popularity ranking -/

def gC7 : PropGraph :=
  { cats := [(1, "Cat")],
    prods := [(1, ("A", 1)), (2, ("B", 2)), (3, ("C", 3))],
    custs := [], orders := [(1, "t1"), (2, "t2")],
    inCat := [(1, 1), (2, 1), (3, 1)],
    placed := [],
    contains := [((1, 1), 10), ((1, 2), 7), ((2, 3), 7)],
    inter := [] }

def outC7a : List (RecItem Int) :=
  [⟨1, "A", 1, "Cat", 10⟩, ⟨2, "B", 2, "Cat", 7⟩, ⟨3, "C", 3, "Cat", 7⟩]

def outC7b : List (RecItem Int) :=
  [⟨1, "A", 1, "Cat", 10⟩, ⟨3, "C", 3, "Cat", 7⟩, ⟨2, "B", 2, "Cat", 7⟩]

/-- C7 counterexample: with A(sold=10), B(sold=7), C(sold=7), both the
B-before-C and the C-before-B outputs are valid results of the popularity
query — it orders by `total_sold` only, so tied products are not ordered
deterministically. -/
theorem popular_tie_order_not_deterministic :
    popSpec gC7 5 outC7a ∧ popSpec gC7 5 outC7b ∧ outC7a ≠ outC7b := by
  refine ⟨⟨[(1, 10), (2, 7), (3, 7)],
      ⟨[(1, 10), (2, 7), (3, 7)], by decide, by decide, by decide⟩, by decide⟩,
    ⟨[(1, 10), (3, 7), (2, 7)],
      ⟨[(1, 10), (3, 7), (2, 7)], by decide, by decide, by decide⟩, by decide⟩,
    by decide⟩

/-- C7 (amended): every valid `popular_products` output is sorted by total
quantity sold descending, each row's score is the sum of the CONTAINS
quantities of its product over all orders, and no customer context enters
the computation — but the relative order of products with equal totals is
left unspecified by the query. -/
theorem pop_spec_props (g : PropGraph) (lim : Nat) (out : List (RecItem Int))
    (h : popSpec g lim out) :
    SortedDescBy RecItem.score out ∧
    ∀ it ∈ out, it.score = totalSold g it.productId ∧
      it.productId ∈ (containsRows g).map fun ce => ce.1.2 := by
  obtain ⟨rs, hrs, hout⟩ := h
  subst hout
  refine ⟨catJoin_sorted hrs.sorted, ?_⟩
  intro it hit
  obtain ⟨e, he, hid, hsc, _⟩ := mem_catJoin hit
  have hesc := mem_popScores (hrs.mem_of_mem he)
  rw [hid, hsc]
  exact hesc

/-- C7 amended-claim witness at `gC7`, limit 5, output `outC7a`. -/
theorem pop_spec_props_witness : SortedDescBy RecItem.score outC7a :=
  (pop_spec_props gC7 5 outC7a
    ⟨[(1, 10), (2, 7), (3, 7)],
      ⟨[(1, 10), (2, 7), (3, 7)], by decide, by decide, by decide⟩, by decide⟩).1

/-! ### C8: frequently bought together -/

/-- C8: every valid `frequently_bought_together` output for product `pid`
excludes `pid` itself, is sorted descending by the number of distinct
orders containing both products (each returned product co-occurring with
`pid` in at least one order), and returns at most `lim` distinct
products. -/
theorem fbt_spec_props (g : PropGraph) (pid lim : Nat)
    (out : List (RecItem Nat)) (h : fbtSpec g pid lim out) :
    (∀ it ∈ out, it.productId ≠ pid ∧ it.score = coCount g pid it.productId ∧
      1 ≤ it.score) ∧
    SortedDescBy RecItem.score out ∧
    (out.map RecItem.productId).dedup.length ≤ lim := by
  obtain ⟨rs, hrs, hout⟩ := h
  subst hout
  refine ⟨?_, catJoin_sorted hrs.sorted, ?_⟩
  · intro it hit
    obtain ⟨e, he, hid, hsc, _⟩ := mem_catJoin hit
    have hesc := mem_coScores (hrs.mem_of_mem he)
    rw [hid, hsc]
    exact ⟨hesc.2.1, hesc.1, hesc.1 ▸ hesc.2.2⟩
  · have hsub : ((catJoin g rs).map RecItem.productId).dedup ⊆ rs.map Prod.fst := by
      intro x hx
      rw [List.mem_dedup, List.mem_map] at hx
      obtain ⟨it, hit, hxit⟩ := hx
      obtain ⟨e, he, hid, _, _⟩ := mem_catJoin hit
      rw [← hxit, hid]
      exact List.mem_map_of_mem _ he
    have hnd : ((catJoin g rs).map RecItem.productId).dedup.Nodup :=
      List.nodup_dedup _
    calc ((catJoin g rs).map RecItem.productId).dedup.length
        ≤ (rs.map Prod.fst).length := (hnd.subperm hsub).length_le
      _ = rs.length := by simp
      _ ≤ lim := hrs.length_le

def gC8 : PropGraph :=
  { cats := [(1, "Cat")],
    prods := [(1, ("A", 1)), (2, ("B", 2))],
    custs := [], orders := [(1, "t")],
    inCat := [(1, 1), (2, 1)],
    placed := [],
    contains := [((1, 1), 1), ((1, 2), 1)],
    inter := [] }

def outC8 : List (RecItem Nat) := [⟨2, "B", 2, "Cat", 1⟩]

/-- C8 witness at `gC8`, product 1, limit 5, output `outC8`. -/
theorem fbt_spec_props_witness :
    SortedDescBy RecItem.score outC8 ∧
    (outC8.map RecItem.productId).dedup.length ≤ 5 :=
  ⟨(fbt_spec_props gC8 1 5 outC8
      ⟨[(2, 1)], ⟨[(2, 1)], by decide, by decide, by decide⟩, by decide⟩).2.1,
   (fbt_spec_props gC8 1 5 outC8
      ⟨[(2, 1)], ⟨[(2, 1)], by decide, by decide, by decide⟩, by decide⟩).2.2⟩

/-! ### C9: absent identifiers and empty histories -/

theorem purchasePaths_eq_nil {g : PropGraph} {cid : Nat}
    (h : alookup cid g.custs = none ∨
      g.placed.filter (fun e => e.1 == cid) = []) :
    purchasePaths g cid = [] := by
  unfold purchasePaths
  rcases h with h | h
  · rw [h]
    rfl
  · by_cases hs : (alookup cid g.custs).isSome = true
    · rw [if_pos hs, h]
      rfl
    · rw [if_neg hs]

theorem neighborScores_eq_nil {g : PropGraph} {cid : Nat}
    (h : purchasePaths g cid = []) : neighborScores g cid = [] := by
  unfold neighborScores
  rw [List.filterMap_eq_nil_iff]
  intro o ho
  by_cases he : o = cid
  · rw [if_pos he]
  · rw [if_neg he]
    have hz : overlapCount g (purchaseSet g cid) o = 0 := by
      unfold overlapCount purchaseSet
      rw [h]
      simp
    rw [if_pos hz]

theorem likedCats_eq_nil {g : PropGraph} {cid : Nat}
    (h : purchasePaths g cid = []) : likedCats g cid = [] := by
  unfold likedCats
  rw [h]
  rfl

theorem contentRows_eq_nil {g : PropGraph} {cid : Nat}
    (h : purchasePaths g cid = []) : contentRows g cid = [] := by
  unfold contentRows
  rw [List.bind_eq_nil]
  intro pe hpe
  rw [List.filterMap_eq_nil_iff]
  intro ic hic
  rw [likedCats_eq_nil h]
  simp

/-- C9: a customer id matching no Customer node, or one with zero orders,
makes every valid `collaborative_filtering` and `content_based` result
empty — the Cypher simply matches nothing; likewise a product id matching
no Product node makes every valid `frequently_bought_together` result
empty.  Absence yields an empty list, not an error. -/
theorem query_absent_yields_empty (g : PropGraph) (cid pid lim : Nat) :
    ((alookup cid g.custs = none ∨
        g.placed.filter (fun e => e.1 == cid) = []) →
      (∀ out, collabSpec g cid lim out → out = []) ∧
      (∀ out, contentSpec g cid lim out → out = [])) ∧
    (alookup pid g.prods = none →
      ∀ out, fbtSpec g pid lim out → out = []) := by
  constructor
  · intro hc
    have hpp := purchasePaths_eq_nil hc
    constructor
    · intro out hspec
      obtain ⟨ns, rs, hns, hrs, hout⟩ := hspec
      rw [neighborScores_eq_nil hpp] at hns
      obtain rfl := hns.eq_nil
      have hrsn : recScores g (purchaseSet g cid)
          (([] : List (Nat × Nat)).map Prod.fst) = [] := rfl
      rw [hrsn] at hrs
      obtain rfl := hrs.eq_nil
      rw [hout]
      rfl
    · intro out hspec
      obtain ⟨rs, hrs, hout⟩ := hspec
      have hgr : contentGrouped g cid = [] := by
        unfold contentGrouped
        rw [contentRows_eq_nil hpp]
        rfl
      rw [hgr] at hrs
      obtain rfl := hrs.eq_nil
      rw [hout]
      rfl
  · intro hp out hspec
    obtain ⟨rs, hrs, hout⟩ := hspec
    have hco : coScores g pid = [] := by
      unfold coScores coRows
      rw [hp]
      rfl
    rw [hco] at hrs
    obtain rfl := hrs.eq_nil
    rw [hout]
    rfl

/-- C9 witness: at the empty graph, customer 42 and product 7, the only
valid outputs are empty. -/
theorem query_absent_yields_empty_witness :
    ([] : List (RecItem Nat)) = [] ∧ ([] : List ProdItem) = [] ∧
    ([] : List (RecItem Nat)) = [] :=
  ⟨((query_absent_yields_empty emptyPG 42 7 5).1 (Or.inl rfl)).1 []
      ⟨[], [], ⟨[], by decide, by decide, by decide⟩,
        ⟨[], by decide, by decide, by decide⟩, by decide⟩,
   ((query_absent_yields_empty emptyPG 42 7 5).1 (Or.inl rfl)).2 []
      ⟨[], ⟨[], by decide, by decide, by decide⟩, by decide⟩,
   (query_absent_yields_empty emptyPG 42 7 5).2 rfl []
      ⟨[], ⟨[], by decide, by decide, by decide⟩, by decide⟩⟩

/-! ### C10: every product row requires a category -/

def gC10 : PropGraph :=
  { cats := [(1, "Cat")],
    prods := [(1, ("A", 1)), (2, ("B", 2))],
    custs := [], orders := [(1, "t")],
    inCat := [(1, 1)],
    placed := [],
    contains := [((1, 1), 5), ((1, 2), 3)],
    inter := [] }

def outC10 : List (RecItem Int) := [⟨1, "A", 1, "Cat", 5⟩]

/-- C10: every endpoint that returns product rows — `list_products` and the
four recommendation strategies — requires a matching IN_CATEGORY edge in
its final pattern, so every returned row's product has one with an existing
Category node, a product without one is silently omitted, and a
recommendation call can return fewer than `limit` rows even when at least
`limit` products qualify (witnessed at `gC10`: two products sold, limit 2,
one row returned because product 2 has no category). -/
theorem category_required_everywhere :
    (∀ g out, listProductsSpec g out → ∀ it ∈ out,
      ∃ c, (it.productId, c) ∈ g.inCat ∧ (alookup c g.cats).isSome = true) ∧
    (∀ g cid lim out, collabSpec g cid lim out → ∀ it ∈ out,
      ∃ c, (it.productId, c) ∈ g.inCat ∧ (alookup c g.cats).isSome = true) ∧
    (∀ g cid lim out, contentSpec g cid lim out → ∀ it ∈ out,
      ∃ c, (it.productId, c) ∈ g.inCat ∧ (alookup c g.cats).isSome = true) ∧
    (∀ g lim out, popSpec g lim out → ∀ it ∈ out,
      ∃ c, (it.productId, c) ∈ g.inCat ∧ (alookup c g.cats).isSome = true) ∧
    (∀ g pid lim out, fbtSpec g pid lim out → ∀ it ∈ out,
      ∃ c, (it.productId, c) ∈ g.inCat ∧ (alookup c g.cats).isSome = true) ∧
    (∃ out, popSpec gC10 2 out ∧ out.length = 1 ∧ 2 ≤ (popScores gC10).length) := by
  refine ⟨?_, ?_, ?_, ?_, ?_, ?_⟩
  · intro g out hspec it hit
    obtain ⟨ranked, hperm, _, hout⟩ := hspec
    subst hout
    exact mem_productRows (hperm.symm.subset hit)
  · intro g cid lim out hspec it hit
    obtain ⟨ns, rs, _, _, hout⟩ := hspec
    subst hout
    obtain ⟨e, _, _, _, c, hc, hsome⟩ := mem_catJoin hit
    exact ⟨c, hc, by rw [hsome]; rfl⟩
  · intro g cid lim out hspec it hit
    obtain ⟨rs, hrs, hout⟩ := hspec
    subst hout
    rw [List.mem_filterMap] at hit
    obtain ⟨e, he, hmatch⟩ := hit
    have hgr := hrs.mem_of_mem he
    simp only [contentGrouped, List.mem_map] at hgr
    obtain ⟨rc, hrc, herc⟩ := hgr
    rw [List.mem_dedup] at hrc
    have hfacts := mem_contentRows hrc
    have he1 : rc = e.1 := congrArg Prod.fst herc
    cases hpa : alookup e.1.1 g.prods with
    | none =>
      rw [hpa] at hmatch
      simp at hmatch
    | some pa =>
      cases hcn : alookup e.1.2 g.cats with
      | none =>
        rw [hpa, hcn] at hmatch
        simp at hmatch
      | some cn =>
        rw [hpa, hcn] at hmatch
        obtain rfl := Option.some.inj hmatch
        refine ⟨e.1.2, ?_, by rw [hcn]; rfl⟩
        show ((e.1.1, e.1.2) : Nat × Nat) ∈ g.inCat
        rw [← he1]
        exact hfacts.1
  · intro g lim out hspec it hit
    obtain ⟨rs, _, hout⟩ := hspec
    subst hout
    obtain ⟨e, _, _, _, c, hc, hsome⟩ := mem_catJoin hit
    exact ⟨c, hc, by rw [hsome]; rfl⟩
  · intro g pid lim out hspec it hit
    obtain ⟨rs, _, hout⟩ := hspec
    subst hout
    obtain ⟨e, _, _, _, c, hc, hsome⟩ := mem_catJoin hit
    exact ⟨c, hc, by rw [hsome]; rfl⟩
  · exact ⟨outC10,
      ⟨[(1, 5), (2, 3)], ⟨[(1, 5), (2, 3)], by decide, by decide, by decide⟩,
        by decide⟩, by decide, by decide⟩

/-- C10 witness: the popularity conjunct applied at `gC10`, limit 2,
output `outC10`, and its single row. -/
theorem category_required_everywhere_witness :
    ∃ c, ((1 : Nat), c) ∈ gC10.inCat ∧ (alookup c gC10.cats).isSome = true :=
  category_required_everywhere.2.2.2.1 gC10 2 outC10
    ⟨[(1, 5), (2, 3)], ⟨[(1, 5), (2, 3)], by decide, by decide, by decide⟩,
      by decide⟩
    ⟨1, "A", 1, "Cat", 5⟩ (by decide)
